import Mathlib

/-!
Verification of the MemeScript-Py text-fitting and layout engine
(src/renderer.py) against its natural-language specification.

The renderer is embedded shallowly:

* Python strings are Lean `String`s; slicing, stripping and splitting are
  modelled by executable helpers over `String.toList` (Python indexes by
  code points, as does `String.toList`).
* PIL font measurement (`draw.textbbox`) is modelled by a `Metrics` record
  of two arbitrary total functions giving the bbox width `bbox[2]-bbox[0]`
  and bbox height `bbox[3]-bbox[1]` of a string.  `_safe_load_font` never
  fails (fallback chain ending in `ImageFont.load_default()`), so a font is
  modelled as the `Metrics` obtained for a given pixel size: a total
  function `Nat → Metrics`.
* Python float arithmetic on the configuration ratios is modelled by exact
  rational arithmetic (`ℚ`) with `int(x)` as truncation (`ratInt`); all
  quantities truncated in the source are nonnegative at their call sites,
  where truncation and floor agree.  `int(line_h * 1.05)` is modelled as
  `line_h * 21 / 20` in `Nat`.
* `textwrap.wrap` (Python standard library, default options) is modelled
  for hyphen-free input: the renderer only ever feeds it single
  whitespace-free words, because a greedy-wrapped line can exceed the
  width budget only when it consists of one word.
* Loops are modelled by structurally recursive functions on an explicit
  fuel argument whose initial value provably dominates the number of
  iterations, so that every definition evaluates by kernel reduction.
-/

namespace MemeSpec

/-! ## String helpers (Python slicing / stripping / splitting) -/

/-- Python `s[:n]` (slice of the first `n` code points). -/
def pyTake (s : String) (n : Nat) : String := String.mk (s.toList.take n)

/-- Python `s[n:]` (drop the first `n` code points). -/
def pyDrop (s : String) (n : Nat) : String := String.mk (s.toList.drop n)

/-- Python `s.rstrip()`: remove trailing whitespace. -/
def rstripStr (s : String) : String :=
  String.mk ((s.toList.reverse.dropWhile Char.isWhitespace).reverse)

/-- Python `s.strip()`: remove leading and trailing whitespace. -/
def stripStr (s : String) : String :=
  String.mk (((s.toList.dropWhile Char.isWhitespace).reverse.dropWhile
    Char.isWhitespace).reverse)

/-- Helper for `splitWS`: accumulate the current (reversed) word. -/
def splitWSGo : List Char → List Char → List (List Char)
  | [], acc => if acc = [] then [] else [acc.reverse]
  | c :: cs, acc =>
    if c.isWhitespace then
      if acc = [] then splitWSGo cs [] else acc.reverse :: splitWSGo cs []
    else splitWSGo cs (c :: acc)

/-- Python `s.split()` (no argument): split on runs of whitespace, dropping
empty pieces. -/
def splitWS (s : String) : List String := (splitWSGo s.toList []).map String.mk

/-- Whether a string consists of whitespace only, i.e. Python
`s.strip() == ""`. -/
def isAllWS (s : String) : Bool := s.toList.all Char.isWhitespace

/-- Python `"".join(parts)`. -/
def joinStrs (parts : List String) : String := parts.foldl (fun a b => a ++ b) ""

/-- Total number of code points in a list of strings. -/
def sumLen (parts : List String) : Nat := (parts.map (fun s => s.toList.length)).sum

/-! ## Font metrics

`draw.textbbox((0, 0), text, font=font)` yields a bounding box; the source
only ever uses `bbox[2] - bbox[0]` (width) and `bbox[3] - bbox[1]` (height),
both nonnegative.  A loaded font is modelled by these two measurement
functions. -/

/-- Measurement functions of one loaded font: rendered pixel width and
height of a string, as obtained from `draw.textbbox`. -/
structure Metrics where
  width : String → Nat
  height : String → Nat

/-- Python `int(q)` for a rational modelling a nonnegative float: numerator
divided by denominator, clamped to `Nat` (truncation and floor agree on the
nonnegative values arising at every call site). -/
def ratInt (q : ℚ) : Nat := (q.num / (q.den : Int)).toNat

/-- Python `int(n * q)` for a pixel count `n` and a configuration ratio
`q`: computed on the numerator and denominator so that it evaluates by
kernel reduction (the `Rat` field operations are irreducible). -/
def ratMulInt (n : Nat) (q : ℚ) : Nat := ((n : Int) * q.num / (q.den : Int)).toNat

/-- Python `int(n * q / 2)`, on the numerator and denominator as in
`ratMulInt`. -/
def ratHalfInt (n : Nat) (q : ℚ) : Nat :=
  ((n : Int) * q.num / ((q.den : Int) * 2)).toNat

/-! ## Model of `textwrap.wrap` (Python stdlib, default options)

Default options: `replace_whitespace=True`, `drop_whitespace=True`,
`break_long_words=True`.  The model covers hyphen-free input (the renderer
feeds `textwrap.wrap` only whitespace-free words, see module comment), so
the `break_on_hyphens` refinement never fires and a long chunk is cut at
exactly the remaining space. -/

/-- Model of `_munge_whitespace`: every whitespace character becomes a
space. -/
def twNormalize (s : String) : String :=
  String.mk (s.toList.map (fun c => if c.isWhitespace then ' ' else c))

/-- Group a character list into maximal runs of spaces / non-spaces,
carrying the class and the reversed current run. -/
def runsGo : List Char → Option (Bool × List Char) → List (List Char)
  | [], none => []
  | [], some st => [st.2.reverse]
  | c :: cs, none => runsGo cs (some ((c == ' '), [c]))
  | c :: cs, some st =>
    if (c == ' ') = st.1 then runsGo cs (some (st.1, c :: st.2))
    else st.2.reverse :: runsGo cs (some ((c == ' '), [c]))

/-- Model of `TextWrapper._split` on whitespace-normalized, hyphen-free
text: alternating word chunks and whitespace-run chunks. -/
def twChunks (s : String) : List String := (runsGo s.toList none).map String.mk

/-- Greedy phase of `_wrap_chunks`: take chunks while the accumulated
length still fits `width`; returns (taken, rest). -/
def greedyTake (width : Nat) (curLen : Nat) : List String → List String × List String
  | [] => ([], [])
  | c :: cs =>
    if curLen + c.toList.length ≤ width then
      let r := greedyTake width (curLen + c.toList.length) cs
      (c :: r.1, r.2)
    else ([], c :: cs)

/-- One `_handle_long_word` step (`break_long_words=True`, no hyphens):
cut the chunk at the remaining space on the current line. -/
def handleLong (width curLen : Nat) (taken : List String) :
    List String → List String × List String
  | [] => (taken, [])
  | r0 :: rtl =>
    if width < r0.toList.length then
      let spaceLeft := if width < 1 then 1 else width - curLen
      (taken ++ [pyTake r0 spaceLeft], pyDrop r0 spaceLeft :: rtl)
    else (taken, r0 :: rtl)

/-- Drop a trailing all-whitespace element of the current line
(`drop_whitespace` at the end of a line). -/
def dropTrailWS (cur : List String) : List String :=
  match cur.getLast? with
  | some l => if isAllWS l then cur.dropLast else cur
  | none => cur

/-- Outer loop of `_wrap_chunks`.  Each iteration removes at least one
character or chunk, so fuel `sumLen chunks + chunks.length + 1` suffices
and the zero-fuel branch is unreachable from `textwrap_wrap`. -/
def twGo (width : Nat) : Nat → List String → Bool → List String
  | 0, _, _ => []
  | fuel+1, chunks, haveLines =>
    match chunks with
    | [] => []
    | c0 :: rest0 =>
      let chunks1 := if haveLines ∧ isAllWS c0 then rest0 else c0 :: rest0
      let g := greedyTake width 0 chunks1
      let hl := handleLong width (sumLen g.1) g.1 g.2
      let cur := dropTrailWS hl.1
      if cur = [] then twGo width fuel hl.2 haveLines
      else joinStrs cur :: twGo width fuel hl.2 true

/-- Model of Python `textwrap.wrap(s, width)` with default options, for
hyphen-free input. -/
def textwrap_wrap (s : String) (width : Nat) : List String :=
  let chunks := twChunks (twNormalize s)
  twGo width (sumLen chunks + chunks.length + 1) chunks false

/-! ## `_wrap_text_for_width` -/

/-- Greedy word-accumulation loop of `_wrap_text_for_width`.  The words
come from `splitWS`, hence contain no whitespace, so the source's
`f"{current} {w}".strip()` is the plain join modelled here. -/
def greedyWrap (m : Metrics) (maxW : Nat) : List String → String → List String
  | [], current => if current = "" then [] else [current]
  | w :: ws, current =>
    let test := if current = "" then w else current ++ " " ++ w
    if m.width test ≤ maxW ∨ current = "" then greedyWrap m maxW ws test
    else current :: greedyWrap m maxW ws w

/-- Estimated characters per line used by the fallback passes:
`max(1, int(max_width / avg_char_w))` with
`avg_char_w = rendered_width / max(1, len(line))`. -/
def estChars (maxW len0 w0 : Nat) : Nat := max 1 (maxW * max 1 len0 / w0)

/-- Second pass of `_wrap_text_for_width`: a line still wider than the
budget is re-wrapped by `textwrap.wrap` at an estimated character count.
The `w0 = 0` branch mirrors the source's `avg_char_w <= 0` guard. -/
def fixLongLines (m : Metrics) (maxW : Nat) (lines : List String) : List String :=
  (lines.map (fun line =>
    let w0 := m.width line
    if w0 ≤ maxW then [line]
    else if w0 = 0 then [line]
    else
      let wrapped := textwrap_wrap line (estChars maxW line.toList.length w0)
      if wrapped = [] then [line] else wrapped)).flatten

/-- Model of `_wrap_text_for_width`: normalize whitespace, greedily
accumulate words, then re-wrap lines that are still too wide. -/
def wrap_text_for_width (m : Metrics) (text : String) (max_width : Nat) : List String :=
  if text = "" then []
  else fixLongLines m max_width (greedyWrap m max_width (splitWS text) "")

/-! ## `_measure_block_height` -/

/-- Model of `_measure_block_height` with the fixed line spacing 1.05 used
at every call site: `Σ int(line_h * 1.05)`, with the float product modelled
exactly as `line_h * 21 / 20`. -/
def measure_block_height (m : Metrics) (lines : List String) : Nat :=
  (lines.map (fun ln => m.height ln * 21 / 20)).sum

/-! ## `_truncate_line_to_width` -/

/-- The ellipsis marker appended by truncation. -/
def ellipsisStr : String := "…"

/-- Binary search of `_truncate_line_to_width` over the prefix length.
Python's loop runs while `low ≤ high`; here `high1 = high + 1` keeps the
bounds in `Nat`.  Returns the best fitting candidate (or `""`) and the
width of the last measured candidate (Python's `last_bbox`).  Each
iteration shrinks `high1 - low`, so fuel `len + 2` suffices. -/
def truncGo (m : Metrics) (line : String) (maxW : Nat) :
    Nat → Nat → Nat → String → Nat → String × Nat
  | 0, _, _, best, lastW => (best, lastW)
  | fuel+1, low, high1, best, lastW =>
    if low < high1 then
      let mid := (low + high1 - 1) / 2
      let candidate := rstripStr (pyTake line mid) ++ ellipsisStr
      let cw := m.width candidate
      if cw ≤ maxW then truncGo m line maxW fuel (mid + 1) high1 candidate cw
      else truncGo m line maxW fuel low mid best cw
    else (best, lastW)

/-- Model of `_truncate_line_to_width`: keep a fitting line; otherwise
binary-search the longest prefix (plus ellipsis) that fits; if even that
fails, fall back to an average-character-width estimate. -/
def truncate_line_to_width (m : Metrics) (line : String) (maxW : Nat) : String :=
  if line = "" then line
  else
    let w0 := m.width line
    if w0 ≤ maxW then line
    else
      let len0 := line.toList.length
      let r := truncGo m line maxW (len0 + 2) 0 (len0 + 1) "" w0
      if r.1 = "" then
        let est := if 0 < r.2 then max 1 (maxW * max 1 len0 / r.2) else max 1 (len0 / 2)
        rstripStr (pyTake line est) ++ ellipsisStr
      else r.1

/-! ## `_shrink_lines_to_height` -/

/-- Merge loop of `_shrink_lines_to_height`: while the block is too tall
and more than one line remains, merge the last two lines (re-truncated).
Each merge shortens the list by one, so fuel `lines.length` suffices: when
the fuel is exhausted at most one line remains and the loop guard is false
anyway. -/
def shrinkGo (m : Metrics) (allowedH maxW : Nat) : Nat → List String → List String
  | 0, ls => ls
  | fuel+1, ls =>
    if measure_block_height m ls ≤ allowedH then ls
    else if ls.length ≤ 1 then ls
    else
      let a := ls.getD (ls.length - 2) ""
      let b := ls.getD (ls.length - 1) ""
      let combined := truncate_line_to_width m (stripStr (a ++ " " ++ b)) maxW
      shrinkGo m allowedH maxW fuel (ls.take (ls.length - 2) ++ [combined])

/-- Model of `_shrink_lines_to_height`: if the block is too tall, truncate
every line to the width, merge the last two lines until it fits or one
line remains, and finally re-truncate a lone remaining line. -/
def shrink_lines_to_height (m : Metrics) (lines : List String)
    (allowedH maxW : Nat) : List String :=
  if measure_block_height m lines ≤ allowedH then lines
  else
    let newLines := lines.map (fun ln => truncate_line_to_width m ln maxW)
    let merged := shrinkGo m allowedH maxW newLines.length newLines
    if allowedH < measure_block_height m merged then
      match merged with
      | [x] => [truncate_line_to_width m x maxW]
      | _ => merged
    else merged

/-! ## `_fit_font_and_lines` -/

/-- Result of the font-size search: the resolved size and the wrapped,
shrunk line sequences of the two slots.  The font itself is determined by
the size (it is `_safe_load_font(font_path, size)`), i.e. `env.fontAt` at
the returned size. -/
structure FitResult where
  size : Nat
  topLines : List String
  bottomLines : List String
deriving Repr, DecidableEq

/-- Closure environment of `_fit_font_and_lines` inside `render_meme`. -/
structure FitEnv where
  fontAt : Nat → Metrics
  h : Nat
  maxTextWidth : Nat
  padding : Nat
  minFontSize : Nat
  maxHeightRatio : ℚ

/-- The budget `allowed_total_h = max(10, int(h * max_text_height_ratio))`. -/
def allowedTotalH (env : FitEnv) : Nat :=
  max 10 (ratMulInt env.h env.maxHeightRatio)

/-- The wrapping width `max_text_width - 2 * padding` used by the search. -/
def fitMaxW (env : FitEnv) : Nat := env.maxTextWidth - 2 * env.padding

/-- Lines of one slot wrapped at a candidate size. -/
def slotLines (env : FitEnv) (size : Nat) (text : String) : List String :=
  wrap_text_for_width (env.fontAt size) text (fitMaxW env)

/-- Measured block height of one slot at a candidate size. -/
def slotH (env : FitEnv) (size : Nat) (text : String) : Nat :=
  measure_block_height (env.fontAt size) (slotLines env size text)

/-- The fitting condition actually tested by the source:
`top_h + bottom_h + 2 * padding <= allowed_total_h`. -/
def combinedFits (env : FitEnv) (top bottom : String) (size : Nat) : Prop :=
  slotH env size top + slotH env size bottom + 2 * env.padding ≤ allowedTotalH env

instance (env : FitEnv) (top bottom : String) (size : Nat) :
    Decidable (combinedFits env top bottom size) := by
  unfold combinedFits; infer_instance

/-- Return path of the search when the condition holds at `size` (or
`size` is already the minimum): shrink both slots against the remaining
budget, using the pre-shrink height of the other slot. -/
def fitHere (env : FitEnv) (top bottom : String) (size : Nat) : FitResult :=
  let m := env.fontAt size
  let tl := slotLines env size top
  let bl := slotLines env size bottom
  let th := measure_block_height m tl
  let bh := measure_block_height m bl
  ⟨size,
   shrink_lines_to_height m tl (allowedTotalH env - bh - env.padding) (fitMaxW env),
   shrink_lines_to_height m bl (allowedTotalH env - th - env.padding) (fitMaxW env)⟩

/-- Early return path taken right after the decrement reaches the minimum
size; unlike `fitHere`, the bottom budget uses the height of the already
shrunk top block. -/
def fitAtMin (env : FitEnv) (top bottom : String) : FitResult :=
  let s := env.minFontSize
  let m := env.fontAt s
  let tl := slotLines env s top
  let bl := slotLines env s bottom
  let tl2 := shrink_lines_to_height m tl
    (allowedTotalH env - measure_block_height m bl - env.padding) (fitMaxW env)
  let bl2 := shrink_lines_to_height m bl
    (allowedTotalH env - measure_block_height m tl2 - env.padding) (fitMaxW env)
  ⟨s, tl2, bl2⟩

/-- Fallback after the `while` loop (reached only when the start size is
below the minimum): wrap at the minimum size and give each slot half the
nominal ratio budget `int(h * max_text_height_ratio / 2)`. -/
def fitTail (env : FitEnv) (top bottom : String) : FitResult :=
  let s := env.minFontSize
  let m := env.fontAt s
  let halfB := ratHalfInt env.h env.maxHeightRatio
  ⟨s,
   shrink_lines_to_height m (slotLines env s top) halfB (fitMaxW env),
   shrink_lines_to_height m (slotLines env s bottom) halfB (fitMaxW env)⟩

/-- The `while size >= min_font_size` loop of `_fit_font_and_lines`.  The
recursive call happens at `max(min, size - 2) < size`, so fuel
`size + 1` suffices and the zero-fuel branch is unreachable from
`fitLoop`. -/
def fitLoopGo (env : FitEnv) (top bottom : String) : Nat → Nat → FitResult
  | 0, _ => fitTail env top bottom
  | fuel+1, size =>
    if env.minFontSize ≤ size then
      if combinedFits env top bottom size ∨ size = env.minFontSize then
        fitHere env top bottom size
      else if max env.minFontSize (size - 2) = env.minFontSize then
        fitAtMin env top bottom
      else fitLoopGo env top bottom fuel (max env.minFontSize (size - 2))
    else fitTail env top bottom

/-- Model of `_fit_font_and_lines` started at `startSize`. -/
def fitLoop (env : FitEnv) (top bottom : String) (startSize : Nat) : FitResult :=
  fitLoopGo env top bottom (startSize + 1) startSize

/-- Number of 2-pixel decrements performed by the search (mirrors the
control flow of `fitLoopGo`). -/
def fitStepsGo (env : FitEnv) (top bottom : String) : Nat → Nat → Nat
  | 0, _ => 0
  | fuel+1, size =>
    if env.minFontSize ≤ size then
      if combinedFits env top bottom size ∨ size = env.minFontSize then 0
      else if max env.minFontSize (size - 2) = env.minFontSize then 1
      else 1 + fitStepsGo env top bottom fuel (max env.minFontSize (size - 2))
    else 0

/-- Number of decrements of the search started at `startSize`. -/
def fitSteps (env : FitEnv) (top bottom : String) (startSize : Nat) : Nat :=
  fitStepsGo env top bottom (startSize + 1) startSize

/-! ## `_reduce_image_if_needed` -/

/-- A PIL image, reduced to what the layout engine reads: its pixel
dimensions. -/
structure PILImage where
  width : Nat
  height : Nat
deriving Repr, DecidableEq

/-- The fixed maximum dimension of `_reduce_image_if_needed`. -/
def MAX_DIMENSION : Nat := 4000

/-- The fixed maximum pixel count `5000 * 5000`. -/
def MAX_IMAGE_PIXELS : Nat := 5000 * 5000

/-- Model of `_reduce_image_if_needed`.  The first branch rescales by
`min(max_dim / w, max_dim / h)`; the second (pixel-count) branch is dead
code: after the first guard fails both sides are at most 4000, so the
pixel count is at most 16000000 < 25000000.  Its square root is modelled
with `Nat.sqrt`; the branch is proved unreachable below. -/
def reduce_image_if_needed (img : PILImage) : PILImage :=
  let w := img.width
  let h := img.height
  if MAX_DIMENSION < w ∨ MAX_DIMENSION < h then
    let scale : ℚ := min ((MAX_DIMENSION : ℚ) / (w : ℚ)) ((MAX_DIMENSION : ℚ) / (h : ℚ))
    ⟨max 1 (ratInt ((w : ℚ) * scale)), max 1 (ratInt ((h : ℚ) * scale))⟩
  else if MAX_IMAGE_PIXELS < w * h then
    ⟨max 1 (Nat.sqrt (w * w * MAX_IMAGE_PIXELS / (w * h))),
     max 1 (Nat.sqrt (h * h * MAX_IMAGE_PIXELS / (w * h)))⟩
  else img

/-! ## `render_meme`: placement and drawing -/

/-- One text draw call issued by `render_meme` (position, text, and the
bbox width/height measured for that line). -/
structure DrawCmd where
  x : Nat
  y : Nat
  text : String
  lineW : Nat
  lineH : Nat
deriving Repr, DecidableEq

/-- One drawing loop of `render_meme`: draw lines downward from `y`,
centering each horizontally (`max(0, (w - line_w) // 2)`), and stop —
skipping every remaining line — as soon as a line's bottom edge would
pass `h - padding`.  Returns the commands and the final cursor `y`. -/
def drawLoop (m : Metrics) (w h padding : Nat) : List String → Nat → List DrawCmd × Nat
  | [], y => ([], y)
  | ln :: rest, y =>
    let lw := m.width ln
    let lh := m.height ln
    let x := (w - lw) / 2
    if ((h : Int) - (padding : Int)) < ((y : Int) + (lh : Int)) then ([], y)
    else
      let r := drawLoop m w h padding rest (y + lh * 21 / 20)
      (⟨x, y, ln, lw, lh⟩ :: r.1, r.2)

/-- Everything `render_meme` computes for a non-null image: the working
dimensions, resolved paddings and font size, the fitted line sequences,
the measured block heights, the draw commands of both slots, the cursor
after the top block and the starting y of the bottom block. -/
structure RenderOutput where
  w : Nat
  h : Nat
  padding : Nat
  usedFontSize : Nat
  topLines : List String
  bottomLines : List String
  topBlockH : Nat
  bottomBlockH : Nat
  topCmds : List DrawCmd
  bottomCmds : List DrawCmd
  yTopEnd : Nat
  yBottomStart : Nat
deriving Repr, DecidableEq

/-- The default `MIN_FONT_SIZE = 12`. -/
def MIN_FONT_SIZE : Nat := 12

/-- Body of `render_meme` for a non-null image.  Color and stroke
parameters only affect pixel colors, not geometry, and are omitted;
`font_path` is absorbed into `fontAt` (the metrics of the font
`_safe_load_font(font_path, size)` resolves, which never fails). -/
def renderCore (img : PILImage) (fontAt : Nat → Metrics)
    (top_text bottom_text : String) (font_size : Option Int)
    (base_font_ratio max_height_ratio : ℚ) (min_font_size : Nat)
    (padding_ratio max_width_ratio : ℚ) : RenderOutput :=
  let img2 := reduce_image_if_needed img
  let w := img2.width
  let h := img2.height
  let maxTextWidth := max 10 (ratMulInt w max_width_ratio)
  let padding := max 4 (ratMulInt (min w h) padding_ratio)
  let initialFontSize :=
    match font_size with
    | some fs =>
      if 0 < fs then fs.toNat
      else max min_font_size (ratMulInt h base_font_ratio)
    | none => max min_font_size (ratMulInt h base_font_ratio)
  let env : FitEnv := ⟨fontAt, h, maxTextWidth, padding, min_font_size, max_height_ratio⟩
  let r := fitLoop env top_text bottom_text initialFontSize
  let font := fontAt r.size
  let topBlockH := measure_block_height font r.topLines
  let bottomBlockH := measure_block_height font r.bottomLines
  let dt := drawLoop font w h padding r.topLines padding
  let yTopEnd := dt.2
  let nominal : Int := (h : Int) - (bottomBlockH : Int) - (padding : Int)
  let yBottomStart : Nat :=
    if nominal < (yTopEnd : Int) + (padding : Int) then max (yTopEnd + padding) padding
    else nominal.toNat
  let db := drawLoop font w h padding r.bottomLines yBottomStart
  ⟨w, h, padding, r.size, r.topLines, r.bottomLines, topBlockH, bottomBlockH,
   dt.1, db.1, yTopEnd, yBottomStart⟩

/-- Model of `render_meme`: raises (`Except.error`) exactly on a null
image, otherwise runs the full pipeline. -/
def render_meme (image : Option PILImage) (fontAt : Nat → Metrics)
    (top_text bottom_text : String) (font_size : Option Int)
    (base_font_ratio max_height_ratio : ℚ) (min_font_size : Nat)
    (padding_ratio max_width_ratio : ℚ) : Except String RenderOutput :=
  match image with
  | none => Except.error ("image no puede ser None")
  | some img =>
    Except.ok (renderCore img fontAt top_text bottom_text font_size
      base_font_ratio max_height_ratio min_font_size padding_ratio max_width_ratio)

/-- Whether an `Except` result is a success. -/
def isOkE : Except String RenderOutput → Bool
  | Except.ok _ => true
  | Except.error _ => false

/-- Raster model of the drawing stage: a pixel `(px, py)` is changed only
if some draw command's footprint covers it AND it lies inside the canvas —
PIL's draw primitives clip to the image buffer, so pixels outside
`[0, w) × [0, h)` are never written.  The footprint (which pixels a text
call with stroke touches) is an arbitrary parameter. -/
def pixelChanged (out : RenderOutput) (footprint : DrawCmd → Int → Int → Bool)
    (px py : Int) : Bool :=
  (decide (0 ≤ px) && decide (px < (out.w : Int)) &&
   decide (0 ≤ py) && decide (py < (out.h : Int))) &&
  (out.topCmds ++ out.bottomCmds).any (fun c => footprint c px py)

/-! ## Lemmas about the font-size search -/

theorem fitHere_size (env : FitEnv) (top bottom : String) (size : Nat) :
    (fitHere env top bottom size).size = size := rfl

theorem fitAtMin_size (env : FitEnv) (top bottom : String) :
    (fitAtMin env top bottom).size = env.minFontSize := rfl

theorem fitTail_size (env : FitEnv) (top bottom : String) :
    (fitTail env top bottom).size = env.minFontSize := rfl

/-- The search never returns a size below the minimum. -/
theorem fitLoopGo_size_ge (env : FitEnv) (top bottom : String) :
    ∀ fuel size, env.minFontSize ≤ (fitLoopGo env top bottom fuel size).size := by
  intro fuel
  induction fuel with
  | zero => intro size; simp [fitLoopGo, fitTail_size]
  | succ fuel ih =>
    intro size
    rw [fitLoopGo]
    split_ifs with h1 h2 h3
    · exact h1
    · exact le_of_eq (fitAtMin_size env top bottom).symm
    · exact ih _
    · exact le_of_eq (fitTail_size env top bottom).symm

/-- The search never returns a size above the start (clamped below by the
minimum). -/
theorem fitLoopGo_size_le (env : FitEnv) (top bottom : String) :
    ∀ fuel size, (fitLoopGo env top bottom fuel size).size ≤ max size env.minFontSize := by
  intro fuel
  induction fuel with
  | zero => intro size; simp [fitLoopGo, fitTail_size]
  | succ fuel ih =>
    intro size
    rw [fitLoopGo]
    split_ifs with h1 h2 h3
    · exact le_max_left _ _
    · exact le_max_right _ _
    · exact le_trans (ih _) (by omega)
    · exact le_max_right _ _

/-- The number of decrements is at most `⌈(size − min)/2⌉`. -/
theorem fitStepsGo_le (env : FitEnv) (top bottom : String) :
    ∀ fuel size, fitStepsGo env top bottom fuel size ≤ (size - env.minFontSize + 1) / 2 := by
  intro fuel
  induction fuel with
  | zero => intro size; simp [fitStepsGo]
  | succ fuel ih =>
    intro size
    rw [fitStepsGo]
    split_ifs with h1 h2 h3
    · simp
    · have hne : size ≠ env.minFontSize := fun h => h2 (Or.inr h)
      omega
    · have h4 := ih (max env.minFontSize (size - 2))
      have hne : size ≠ env.minFontSize := fun h => h2 (Or.inr h)
      omega
    · simp

/-- Characterization of the search result for a start at or above the
minimum: the returned size satisfies the combined condition (or is the
minimum), and every larger candidate on the 2-step grid fails the
combined condition. -/
theorem fitLoopGo_char (env : FitEnv) (top bottom : String) :
    ∀ fuel size, size < fuel → env.minFontSize ≤ size →
      (combinedFits env top bottom (fitLoopGo env top bottom fuel size).size ∨
        (fitLoopGo env top bottom fuel size).size = env.minFontSize) ∧
      (∀ s, env.minFontSize ≤ s → s ≤ size → 2 ∣ (size - s) →
        (fitLoopGo env top bottom fuel size).size < s →
        ¬ combinedFits env top bottom s) := by
  intro fuel
  induction fuel with
  | zero => intro size h; exact absurd h (Nat.not_lt_zero _)
  | succ fuel ih =>
    intro size hfuel hmin
    rw [fitLoopGo]
    split_ifs with h1 h2
    · refine ⟨?_, ?_⟩
      · rw [fitHere_size]; exact h1
      · intro s _ hs2 _ hlt
        rw [fitHere_size] at hlt
        omega
    · have hfits : ¬ combinedFits env top bottom size := fun hf => h1 (Or.inl hf)
      have hne : size ≠ env.minFontSize := fun hf => h1 (Or.inr hf)
      refine ⟨Or.inr (fitAtMin_size env top bottom), ?_⟩
      intro s hs1 hs2 hdvd hlt
      rw [fitAtMin_size] at hlt
      by_cases hss : s = size
      · exact hss ▸ hfits
      · exfalso; omega
    · have hfits : ¬ combinedFits env top bottom size := fun hf => h1 (Or.inl hf)
      have hne : size ≠ env.minFontSize := fun hf => h1 (Or.inr hf)
      have hlt2 : env.minFontSize < size - 2 := by omega
      have hrec := ih (max env.minFontSize (size - 2)) (by omega) (le_max_left _ _)
      refine ⟨hrec.1, ?_⟩
      intro s hs1 hs2 hdvd hlt
      by_cases hss : s ≤ size - 2
      · exact hrec.2 s hs1 (by omega) (by omega) hlt
      · have hseq : s = size := by omega
        exact hseq ▸ hfits

/-- Top-level form: the search never returns a size below the minimum. -/
theorem fitLoop_size_ge (env : FitEnv) (top bottom : String) (startSize : Nat) :
    env.minFontSize ≤ (fitLoop env top bottom startSize).size :=
  fitLoopGo_size_ge env top bottom (startSize + 1) startSize

/-- Top-level form: the search never returns a size above
`max startSize minFontSize`. -/
theorem fitLoop_size_le (env : FitEnv) (top bottom : String) (startSize : Nat) :
    (fitLoop env top bottom startSize).size ≤ max startSize env.minFontSize :=
  fitLoopGo_size_le env top bottom (startSize + 1) startSize

/-! ## Claim C1 -/

/-- Spec-side fitting predicate, following the words of claim C1: each
caption slot's wrapped block height independently fits its own budget of
`H × max_text_height_ratio` (block heights are integers, so comparison
with the truncated budget `⌊H × ratio⌋` is equivalent). -/
def perSlotFitsSpec (env : FitEnv) (top bottom : String) (size : Nat) : Prop :=
  slotH env size top ≤ ratMulInt env.h env.maxHeightRatio ∧
  slotH env size bottom ≤ ratMulInt env.h env.maxHeightRatio

instance (env : FitEnv) (top bottom : String) (size : Nat) :
    Decidable (perSlotFitsSpec env top bottom size) := by
  unfold perSlotFitsSpec; infer_instance

/-- Concrete font family for the C1/C2 counterexamples: width is the
character count; line height is 19 at sizes ≥ 20 and 13 below. -/
def cxFontC1 : Nat → Metrics := fun s =>
  ⟨fun t => t.toList.length, fun _ => if 20 ≤ s then 19 else 13⟩

/-- Concrete search environment: 100×100 canvas, default-ratio derived
values (max_text_width 95, padding 4, min size 12, ratio 0.35). -/
def cxEnvC1 : FitEnv := ⟨cxFontC1, 100, 95, 4, 12, mkRat 7 20⟩

/-- Single-word top caption used by the concrete counterexamples. -/
def cxTop : String := "T"

/-- Single-word bottom caption used by the concrete counterexamples. -/
def cxBot : String := "B"

/-- C1: counterexample.  At size 20 each slot's wrapped block height (19)
independently fits the per-slot budget ⌊100 × 0.35⌋ = 35, yet the search
does not select 20: the code tests the summed condition
`top_h + bottom_h + 2·padding ≤ max(10, ⌊H·ratio⌋)`, which fails at 20
(19 + 19 + 8 = 46 > 35) and first holds at 18 (13 + 13 + 8 = 34), so the
search returns 18, not the largest per-slot-fitting size 20. -/
theorem fit_per_slot_budget_cx :
    perSlotFitsSpec cxEnvC1 cxTop cxBot 20 ∧
    (fitLoop cxEnvC1 cxTop cxBot 20).size = 18 := by decide

/-- C1 (amended): the font-size search selects the largest candidate of
the descending 2-pixel scan (startSize, startSize−2, …, clamped at
min_font_size) at which the summed condition
`top_h + bottom_h + 2·padding ≤ max(10, ⌊H × max_text_height_ratio⌋)`
holds — a single combined budget including the padding term, not a
per-slot budget — and returns min_font_size when no scanned candidate
fits. -/
theorem fit_combined_budget_scan (env : FitEnv) (top bottom : String) (startSize : Nat) :
    (combinedFits env top bottom (fitLoop env top bottom startSize).size ∨
      (fitLoop env top bottom startSize).size = env.minFontSize) ∧
    (∀ s, env.minFontSize ≤ s → s ≤ startSize → 2 ∣ (startSize - s) →
      (fitLoop env top bottom startSize).size < s →
      ¬ combinedFits env top bottom s) := by
  by_cases h : env.minFontSize ≤ startSize
  · exact fitLoopGo_char env top bottom (startSize + 1) startSize (Nat.lt_succ_self _) h
  · constructor
    · right
      show (fitLoopGo env top bottom (startSize + 1) startSize).size = _
      rw [fitLoopGo, if_neg h, fitTail_size]
    · intro s hs1 hs2
      omega

/-! ## Claim C7 -/

/-- Concrete font family for the C7 counterexample: every line is 100
pixels tall, so no candidate size ever satisfies the combined condition. -/
def cxFontC7 : Nat → Metrics := fun _ => ⟨fun t => t.toList.length, fun _ => 100⟩

/-- Concrete search environment for the C7 counterexample. -/
def cxEnvC7 : FitEnv := ⟨cxFontC7, 100, 95, 4, 12, mkRat 7 20⟩

/-- C7: counterexample to the claimed iteration bound.  Starting at 15
with minimum 12 and captions that never fit, the scan performs 2
decrements (15 → 13 → 12), exceeding the claimed bound
(start − min)/step = (15 − 12)/2 = 1.5. -/
theorem fit_steps_bound_cx :
    fitSteps cxEnvC7 cxTop cxBot 15 = 2 ∧
    ¬ ((fitSteps cxEnvC7 cxTop cxBot 15 : ℚ) ≤ (15 - 12) / 2) := by
  have h : fitSteps cxEnvC7 cxTop cxBot 15 = 2 := by decide
  refine ⟨h, ?_⟩
  rw [h]
  norm_num

/-- C7 (amended): the font-size search always terminates — the number of
2-pixel decrements is at most ⌈(start − min)/2⌉ = (start − min + 1)/2 —
never raises (it is a total function returning a size and the line
sequences of both slots), and the returned size is never below
min_font_size. -/
theorem fit_search_bounded (env : FitEnv) (top bottom : String) (startSize : Nat) :
    env.minFontSize ≤ (fitLoop env top bottom startSize).size ∧
    fitSteps env top bottom startSize ≤ (startSize - env.minFontSize + 1) / 2 :=
  ⟨fitLoop_size_ge env top bottom startSize,
   fitStepsGo_le env top bottom (startSize + 1) startSize⟩

/-! ## Claim C2 -/

/-- C2: counterexample.  With explicit `font_size = 20` on a 100×100 image
whose captions do not fit at 20 under `cxFontC1`, the render does not lay
the captions out at 20: the descending scan still runs and settles at 18. -/
theorem explicit_font_size_bypass_cx :
    (renderCore (PILImage.mk 100 100) cxFontC1 cxTop cxBot (some 20) (mkRat 3 50)
      (mkRat 7 20) 12 (mkRat 1 50) (mkRat 19 20)).usedFontSize = 18 ∧
    ¬ ((renderCore (PILImage.mk 100 100) cxFontC1 cxTop cxBot (some 20) (mkRat 3 50)
      (mkRat 7 20) 12 (mkRat 1 50) (mkRat 19 20)).usedFontSize = 20) := by decide

/-- C2 (amended): a positive explicit `font_size` only sets the starting
candidate of the descending font-size search; the scan still runs from
that size, so the size actually used equals the search result started at
`font_size` — never below `min_font_size` and never above
`max font_size min_font_size`, but possibly smaller than the explicit
size. -/
theorem explicit_font_size_seeds_scan (img : PILImage) (fontAt : Nat → Metrics)
    (top bottom : String) (fs : Int) (bfr mhr : ℚ) (mfs : Nat) (pr mwr : ℚ)
    (hfs : 0 < fs) :
    (renderCore img fontAt top bottom (some fs) bfr mhr mfs pr mwr).usedFontSize =
      (fitLoop
        ⟨fontAt, (reduce_image_if_needed img).height,
         max 10 (ratMulInt (reduce_image_if_needed img).width mwr),
         max 4 (ratMulInt
           (min (reduce_image_if_needed img).width (reduce_image_if_needed img).height) pr),
         mfs, mhr⟩ top bottom fs.toNat).size ∧
    mfs ≤ (renderCore img fontAt top bottom (some fs) bfr mhr mfs pr mwr).usedFontSize ∧
    (renderCore img fontAt top bottom (some fs) bfr mhr mfs pr mwr).usedFontSize ≤
      max fs.toNat mfs := by
  have h1 : (renderCore img fontAt top bottom (some fs) bfr mhr mfs pr mwr).usedFontSize =
      (fitLoop
        ⟨fontAt, (reduce_image_if_needed img).height,
         max 10 (ratMulInt (reduce_image_if_needed img).width mwr),
         max 4 (ratMulInt
           (min (reduce_image_if_needed img).width (reduce_image_if_needed img).height) pr),
         mfs, mhr⟩ top bottom fs.toNat).size := by
    simp only [renderCore, if_pos hfs]
  refine ⟨h1, ?_, ?_⟩
  · rw [h1]
    exact fitLoop_size_ge
      ⟨fontAt, (reduce_image_if_needed img).height,
       max 10 (ratMulInt (reduce_image_if_needed img).width mwr),
       max 4 (ratMulInt
         (min (reduce_image_if_needed img).width (reduce_image_if_needed img).height) pr),
       mfs, mhr⟩ top bottom fs.toNat
  · rw [h1]
    exact fitLoop_size_le
      ⟨fontAt, (reduce_image_if_needed img).height,
       max 10 (ratMulInt (reduce_image_if_needed img).width mwr),
       max 4 (ratMulInt
         (min (reduce_image_if_needed img).width (reduce_image_if_needed img).height) pr),
       mfs, mhr⟩ top bottom fs.toNat

/-- C2 (witness): the amended theorem applied at the concrete
counterexample input; the hypothesis `0 < 20` is discharged there. -/
theorem explicit_font_size_seeds_scan_witness :
    (0 : Int) < 20 ∧
    12 ≤ (renderCore (PILImage.mk 100 100) cxFontC1 cxTop cxBot (some 20) (mkRat 3 50)
      (mkRat 7 20) 12 (mkRat 1 50) (mkRat 19 20)).usedFontSize :=
  ⟨by decide,
   (explicit_font_size_seeds_scan (PILImage.mk 100 100) cxFontC1 cxTop cxBot 20
     (mkRat 3 50) (mkRat 7 20) 12 (mkRat 1 50) (mkRat 19 20) (by decide)).2.1⟩

/-! ## Lemmas about the drawing loops -/

/-- Every command emitted by a drawing loop has its bottom edge at or
above `h - padding`: a line that would cross it is never drawn. -/
theorem drawLoop_cmds_bound (m : Metrics) (w h padding : Nat) :
    ∀ lines y, ∀ c ∈ (drawLoop m w h padding lines y).1,
      (c.y : Int) + (c.lineH : Int) ≤ (h : Int) - (padding : Int) := by
  intro lines
  induction lines with
  | nil => intro y c hc; simp [drawLoop] at hc
  | cons ln rest ih =>
    intro y c hc
    rw [drawLoop] at hc
    split_ifs at hc with h1
    · simp at hc
    · simp only [List.mem_cons] at hc
      rcases hc with rfl | hc
      · simpa using not_lt.mp h1
      · exact ih _ c hc

/-- The drawing cursor never moves up. -/
theorem drawLoop_y_ge (m : Metrics) (w h padding : Nat) :
    ∀ lines y, y ≤ (drawLoop m w h padding lines y).2 := by
  intro lines
  induction lines with
  | nil => intro y; exact le_refl y
  | cons ln rest ih =>
    intro y
    rw [drawLoop]
    split_ifs with h1
    · exact le_refl y
    · exact le_trans (Nat.le_add_right y _) (ih _)

/-- The first command a drawing loop emits (if any) is at the starting
cursor. -/
theorem drawLoop_head_y (m : Metrics) (w h padding : Nat) (lines : List String) (y : Nat) :
    (((drawLoop m w h padding lines y).1.map DrawCmd.y).headD y) = y := by
  cases lines with
  | nil => rfl
  | cons ln rest =>
    rw [drawLoop]
    split_ifs with h1
    · rfl
    · rfl

/-- Command y-positions are nondecreasing: each block flows downward. -/
theorem drawLoop_chain (m : Metrics) (w h padding : Nat) :
    ∀ lines y, List.Chain' (fun a b => a.y ≤ b.y) (drawLoop m w h padding lines y).1 := by
  intro lines
  induction lines with
  | nil => intro y; simp [drawLoop]
  | cons ln rest ih =>
    intro y
    rw [drawLoop]
    split_ifs with h1
    · simp
    · rw [List.chain'_cons']
      refine ⟨?_, ih _⟩
      intro b hb
      have hd := drawLoop_head_y m w h padding rest (y + m.height ln * 21 / 20)
      rcases hh : (drawLoop m w h padding rest (y + m.height ln * 21 / 20)).1 with _ | ⟨b0, tl⟩
      · rw [hh] at hb; simp at hb
      · rw [hh] at hb hd
        simp only [List.head?_cons, Option.mem_def, Option.some.injEq] at hb
        simp only [List.map_cons, List.headD_cons] at hd
        show y ≤ b.y
        rw [← hb, hd]
        exact Nat.le_add_right y _

/-- The texts a drawing loop draws are an initial segment of its input
lines: once a line is skipped, all remaining lines are skipped. -/
theorem drawLoop_texts_take (m : Metrics) (w h padding : Nat) :
    ∀ lines y, ∃ k, ((drawLoop m w h padding lines y).1.map DrawCmd.text) = lines.take k := by
  intro lines
  induction lines with
  | nil => intro y; exact ⟨0, rfl⟩
  | cons ln rest ih =>
    intro y
    rw [drawLoop]
    split_ifs with h1
    · exact ⟨0, rfl⟩
    · obtain ⟨k, hk⟩ := ih (y + m.height ln * 21 / 20)
      exact ⟨k + 1, by simp [hk]⟩

/-! ## Claim C6 -/

/-- C6: during drawing of both caption blocks a line whose bottom edge
`y + line_h` would exceed `H − padding` is never drawn and all remaining
lines of that block are skipped silently (the drawn texts form an initial
segment of the block's lines); and every changed pixel lies inside
`[0, W) × [0, H)` — PIL draw primitives clip to the canvas, as modelled by
`pixelChanged`. -/
theorem drawn_lines_in_bounds (img : PILImage) (fontAt : Nat → Metrics)
    (top bottom : String) (fs : Option Int) (bfr mhr : ℚ) (mfs : Nat) (pr mwr : ℚ)
    (footprint : DrawCmd → Int → Int → Bool) :
    (∀ c ∈ (renderCore img fontAt top bottom fs bfr mhr mfs pr mwr).topCmds ++
        (renderCore img fontAt top bottom fs bfr mhr mfs pr mwr).bottomCmds,
      (c.y : Int) + (c.lineH : Int) ≤
        ((renderCore img fontAt top bottom fs bfr mhr mfs pr mwr).h : Int) -
        ((renderCore img fontAt top bottom fs bfr mhr mfs pr mwr).padding : Int)) ∧
    (∃ k, (renderCore img fontAt top bottom fs bfr mhr mfs pr mwr).topCmds.map
        DrawCmd.text =
      (renderCore img fontAt top bottom fs bfr mhr mfs pr mwr).topLines.take k) ∧
    (∃ k, (renderCore img fontAt top bottom fs bfr mhr mfs pr mwr).bottomCmds.map
        DrawCmd.text =
      (renderCore img fontAt top bottom fs bfr mhr mfs pr mwr).bottomLines.take k) ∧
    (∀ px py : Int,
      pixelChanged (renderCore img fontAt top bottom fs bfr mhr mfs pr mwr) footprint px py
          = true →
      0 ≤ px ∧ px < ((renderCore img fontAt top bottom fs bfr mhr mfs pr mwr).w : Int) ∧
      0 ≤ py ∧ py < ((renderCore img fontAt top bottom fs bfr mhr mfs pr mwr).h : Int)) := by
  refine ⟨?_, ?_, ?_, ?_⟩
  · intro c hc
    rcases List.mem_append.mp hc with hc | hc
    · exact drawLoop_cmds_bound _ _ _ _ _ _ c hc
    · exact drawLoop_cmds_bound _ _ _ _ _ _ c hc
  · exact drawLoop_texts_take _ _ _ _ _ _
  · exact drawLoop_texts_take _ _ _ _ _ _
  · intro px py hpx
    simp only [pixelChanged, Bool.and_eq_true, decide_eq_true_eq] at hpx
    exact ⟨hpx.1.1.1.1, hpx.1.1.1.2, hpx.1.1.2, hpx.1.2⟩

/-! ## Claim C10 -/

/-- C10: the bottom block's start is clamped so the two blocks never
overlap: drawing of the bottom block begins at least `padding` pixels
below the cursor left by the top block (hence also at or below
`y = padding`), and whenever the nominal start `H − block_height −
padding` would fall above `yTopEnd + padding` it is clamped to
`max (yTopEnd + padding) padding`. -/
theorem bottom_start_no_overlap (img : PILImage) (fontAt : Nat → Metrics)
    (top bottom : String) (fs : Option Int) (bfr mhr : ℚ) (mfs : Nat) (pr mwr : ℚ) :
    (renderCore img fontAt top bottom fs bfr mhr mfs pr mwr).padding ≤
      (renderCore img fontAt top bottom fs bfr mhr mfs pr mwr).yTopEnd ∧
    (renderCore img fontAt top bottom fs bfr mhr mfs pr mwr).yTopEnd +
        (renderCore img fontAt top bottom fs bfr mhr mfs pr mwr).padding ≤
      (renderCore img fontAt top bottom fs bfr mhr mfs pr mwr).yBottomStart ∧
    (renderCore img fontAt top bottom fs bfr mhr mfs pr mwr).padding ≤
      (renderCore img fontAt top bottom fs bfr mhr mfs pr mwr).yBottomStart ∧
    ((((renderCore img fontAt top bottom fs bfr mhr mfs pr mwr).h : Int) -
        ((renderCore img fontAt top bottom fs bfr mhr mfs pr mwr).bottomBlockH : Int) -
        ((renderCore img fontAt top bottom fs bfr mhr mfs pr mwr).padding : Int) <
        ((renderCore img fontAt top bottom fs bfr mhr mfs pr mwr).yTopEnd : Int) +
        ((renderCore img fontAt top bottom fs bfr mhr mfs pr mwr).padding : Int)) →
      (renderCore img fontAt top bottom fs bfr mhr mfs pr mwr).yBottomStart =
        max ((renderCore img fontAt top bottom fs bfr mhr mfs pr mwr).yTopEnd +
          (renderCore img fontAt top bottom fs bfr mhr mfs pr mwr).padding)
          (renderCore img fontAt top bottom fs bfr mhr mfs pr mwr).padding) := by
  simp only [renderCore]
  have hy := drawLoop_y_ge
    (fontAt
      (fitLoop
        ⟨fontAt, (reduce_image_if_needed img).height,
         max 10 (ratMulInt (reduce_image_if_needed img).width mwr),
         max 4 (ratMulInt
           (min (reduce_image_if_needed img).width (reduce_image_if_needed img).height) pr),
         mfs, mhr⟩ top bottom
        (match fs with
         | some v =>
           if 0 < v then v.toNat
           else max mfs (ratMulInt (reduce_image_if_needed img).height bfr)
         | none => max mfs (ratMulInt (reduce_image_if_needed img).height bfr))).size)
    (reduce_image_if_needed img).width (reduce_image_if_needed img).height
    (max 4 (ratMulInt
      (min (reduce_image_if_needed img).width (reduce_image_if_needed img).height) pr))
    (fitLoop
      ⟨fontAt, (reduce_image_if_needed img).height,
       max 10 (ratMulInt (reduce_image_if_needed img).width mwr),
       max 4 (ratMulInt
         (min (reduce_image_if_needed img).width (reduce_image_if_needed img).height) pr),
       mfs, mhr⟩ top bottom
      (match fs with
       | some v =>
         if 0 < v then v.toNat
         else max mfs (ratMulInt (reduce_image_if_needed img).height bfr)
       | none => max mfs (ratMulInt (reduce_image_if_needed img).height bfr))).topLines
    (max 4 (ratMulInt
      (min (reduce_image_if_needed img).width (reduce_image_if_needed img).height) pr))
  constructor
  · exact hy
  · constructor
    · split_ifs with h1
      · exact le_max_left _ _
      · omega
    · constructor
      · split_ifs with h1
        · exact le_max_right _ _
        · omega
      · intro h1
        rw [if_pos h1]

/-! ## Claim C4 -/

/-- Concrete font family for the C4 counterexample: the top line is 46
pixels tall, the bottom line 40, so the top block ends at y = 52 and the
nominal bottom start 100 − 42 − 4 = 54 falls above 52 + 4 = 56 and is
clamped. -/
def cxFontC4 : Nat → Metrics := fun _ =>
  ⟨fun t => t.toList.length, fun t => if t = cxTop then 46 else 40⟩

/-- C4: counterexample.  On a 100×100 image with `cxFontC4`, the bottom
caption's single line is drawn at y = 56, not at the nominal
`H − block_height − padding` = 100 − 42 − 4 = 54: the start was clamped
below the top block. -/
theorem bottom_block_nominal_start_cx :
    (renderCore (PILImage.mk 100 100) cxFontC4 cxTop cxBot none (mkRat 3 50)
        (mkRat 7 20) 12 (mkRat 1 50) (mkRat 19 20)).bottomCmds.map DrawCmd.y = [56] ∧
    ((renderCore (PILImage.mk 100 100) cxFontC4 cxTop cxBot none (mkRat 3 50)
        (mkRat 7 20) 12 (mkRat 1 50) (mkRat 19 20)).h : Int) -
      ((renderCore (PILImage.mk 100 100) cxFontC4 cxTop cxBot none (mkRat 3 50)
        (mkRat 7 20) 12 (mkRat 1 50) (mkRat 19 20)).bottomBlockH : Int) -
      ((renderCore (PILImage.mk 100 100) cxFontC4 cxTop cxBot none (mkRat 3 50)
        (mkRat 7 20) 12 (mkRat 1 50) (mkRat 19 20)).padding : Int) = 54 := by decide

/-- C4 (amended): the bottom caption block is drawn starting at
`y = H − block_height − padding` unless that value falls above the top
block's final cursor plus padding, in which case the start is clamped to
`max (yTopEnd + padding) padding`; from its start the block flows
downward (nondecreasing line positions), the first drawn line sitting
exactly at the start. -/
theorem bottom_block_position (img : PILImage) (fontAt : Nat → Metrics)
    (top bottom : String) (fs : Option Int) (bfr mhr : ℚ) (mfs : Nat) (pr mwr : ℚ) :
    (((renderCore img fontAt top bottom fs bfr mhr mfs pr mwr).bottomCmds.map
        DrawCmd.y).headD
      (renderCore img fontAt top bottom fs bfr mhr mfs pr mwr).yBottomStart) =
      (renderCore img fontAt top bottom fs bfr mhr mfs pr mwr).yBottomStart ∧
    List.Chain' (fun a b => a.y ≤ b.y)
      (renderCore img fontAt top bottom fs bfr mhr mfs pr mwr).bottomCmds ∧
    (renderCore img fontAt top bottom fs bfr mhr mfs pr mwr).yBottomStart =
      (if ((renderCore img fontAt top bottom fs bfr mhr mfs pr mwr).h : Int) -
          ((renderCore img fontAt top bottom fs bfr mhr mfs pr mwr).bottomBlockH : Int) -
          ((renderCore img fontAt top bottom fs bfr mhr mfs pr mwr).padding : Int) <
          ((renderCore img fontAt top bottom fs bfr mhr mfs pr mwr).yTopEnd : Int) +
          ((renderCore img fontAt top bottom fs bfr mhr mfs pr mwr).padding : Int)
       then max ((renderCore img fontAt top bottom fs bfr mhr mfs pr mwr).yTopEnd +
          (renderCore img fontAt top bottom fs bfr mhr mfs pr mwr).padding)
          (renderCore img fontAt top bottom fs bfr mhr mfs pr mwr).padding
       else (((renderCore img fontAt top bottom fs bfr mhr mfs pr mwr).h : Int) -
          ((renderCore img fontAt top bottom fs bfr mhr mfs pr mwr).bottomBlockH : Int) -
          ((renderCore img fontAt top bottom fs bfr mhr mfs pr mwr).padding : Int)).toNat) :=
  ⟨drawLoop_head_y _ _ _ _ _ _, drawLoop_chain _ _ _ _ _ _, rfl⟩

/-! ## Lemmas about `ratInt` -/

theorem ratInt_eq_floor (q : ℚ) : ratInt q = (⌊q⌋).toNat := by
  rw [ratInt, Rat.floor_def]

theorem ratInt_le (q : ℚ) (n : Nat) (h : q ≤ (n : ℚ)) : ratInt q ≤ n := by
  rw [ratInt_eq_floor]
  have h2 : ⌊q⌋ ≤ (n : Int) := by
    calc ⌊q⌋ ≤ ⌊(n : ℚ)⌋ := Int.floor_le_floor h
      _ = (n : Int) := Int.floor_natCast n
  omega

theorem ratInt_natCast (n : Nat) : ratInt ((n : ℚ)) = n := by
  rw [ratInt_eq_floor]
  simp

/-! ## Claim C9 -/

/-- C9: normalization returns an image whose sides are at most
`MAX_DIMENSION` and whose pixel count is at most `MAX_IMAGE_PIXELS`; it
only ever downscales, an image already within both bounds is returned
unchanged, and both sides are obtained from one common scale factor
`s ≤ 1` (aspect ratio preserved up to the integer truncation `⌊dim·s⌋`,
clamped to at least 1 pixel). -/
theorem reduce_image_bounds (img : PILImage) (hw : 0 < img.width) (hh : 0 < img.height) :
    (reduce_image_if_needed img).width ≤ MAX_DIMENSION ∧
    (reduce_image_if_needed img).height ≤ MAX_DIMENSION ∧
    (reduce_image_if_needed img).width * (reduce_image_if_needed img).height ≤
      MAX_IMAGE_PIXELS ∧
    (reduce_image_if_needed img).width ≤ img.width ∧
    (reduce_image_if_needed img).height ≤ img.height ∧
    (img.width ≤ MAX_DIMENSION → img.height ≤ MAX_DIMENSION →
      img.width * img.height ≤ MAX_IMAGE_PIXELS → reduce_image_if_needed img = img) ∧
    ∃ s : ℚ, 0 < s ∧ s ≤ 1 ∧
      (reduce_image_if_needed img).width = max 1 (ratInt ((img.width : ℚ) * s)) ∧
      (reduce_image_if_needed img).height = max 1 (ratInt ((img.height : ℚ) * s)) := by
  have hwq : (0 : ℚ) < (img.width : ℚ) := by exact_mod_cast hw
  have hhq : (0 : ℚ) < (img.height : ℚ) := by exact_mod_cast hh
  rw [reduce_image_if_needed]
  split_ifs with h1 h2
  · -- dimension branch
    set scale : ℚ :=
      min ((MAX_DIMENSION : ℚ) / (img.width : ℚ)) ((MAX_DIMENSION : ℚ) / (img.height : ℚ))
      with hscale
    have hspos : 0 < scale := by
      apply lt_min
      · exact div_pos (by norm_num [MAX_DIMENSION]) hwq
      · exact div_pos (by norm_num [MAX_DIMENSION]) hhq
    have hsle1 : scale ≤ 1 := by
      rcases h1 with h1 | h1
      · refine le_trans (min_le_left _ _) ?_
        rw [div_le_one hwq]
        exact_mod_cast le_of_lt h1
      · refine le_trans (min_le_right _ _) ?_
        rw [div_le_one hhq]
        exact_mod_cast le_of_lt h1
    have hwmul : (img.width : ℚ) * scale ≤ (MAX_DIMENSION : ℚ) := by
      calc (img.width : ℚ) * scale
          ≤ (img.width : ℚ) * ((MAX_DIMENSION : ℚ) / (img.width : ℚ)) :=
            mul_le_mul_of_nonneg_left (min_le_left _ _) (le_of_lt hwq)
        _ = (MAX_DIMENSION : ℚ) := mul_div_cancel₀ _ (ne_of_gt hwq)
    have hhmul : (img.height : ℚ) * scale ≤ (MAX_DIMENSION : ℚ) := by
      calc (img.height : ℚ) * scale
          ≤ (img.height : ℚ) * ((MAX_DIMENSION : ℚ) / (img.height : ℚ)) :=
            mul_le_mul_of_nonneg_left (min_le_right _ _) (le_of_lt hhq)
        _ = (MAX_DIMENSION : ℚ) := mul_div_cancel₀ _ (ne_of_gt hhq)
    have hwb : ratInt ((img.width : ℚ) * scale) ≤ MAX_DIMENSION := ratInt_le _ _ hwmul
    have hhb : ratInt ((img.height : ℚ) * scale) ≤ MAX_DIMENSION := ratInt_le _ _ hhmul
    have hwd : ratInt ((img.width : ℚ) * scale) ≤ img.width := by
      apply ratInt_le
      calc (img.width : ℚ) * scale ≤ (img.width : ℚ) * 1 :=
            mul_le_mul_of_nonneg_left hsle1 (le_of_lt hwq)
        _ = (img.width : ℚ) := mul_one _
    have hhd : ratInt ((img.height : ℚ) * scale) ≤ img.height := by
      apply ratInt_le
      calc (img.height : ℚ) * scale ≤ (img.height : ℚ) * 1 :=
            mul_le_mul_of_nonneg_left hsle1 (le_of_lt hhq)
        _ = (img.height : ℚ) := mul_one _
    have hdim1 : 1 ≤ MAX_DIMENSION := by norm_num [MAX_DIMENSION]
    refine ⟨by simpa using max_le hdim1 hwb, by simpa using max_le hdim1 hhb, ?_, ?_, ?_, ?_, ?_⟩
    · calc (max 1 (ratInt ((img.width : ℚ) * scale))) *
            (max 1 (ratInt ((img.height : ℚ) * scale)))
          ≤ MAX_DIMENSION * MAX_DIMENSION :=
            Nat.mul_le_mul (max_le hdim1 hwb) (max_le hdim1 hhb)
        _ ≤ MAX_IMAGE_PIXELS := by norm_num [MAX_DIMENSION, MAX_IMAGE_PIXELS]
    · simpa using max_le hw hwd
    · simpa using max_le hh hhd
    · intro hcw hch _
      exfalso
      rcases h1 with h1 | h1 <;> omega
    · exact ⟨scale, hspos, hsle1, rfl, rfl⟩
  · -- pixel-count branch: dead code (both sides ≤ MAX_DIMENSION here)
    exfalso
    push_neg at h1
    have hb : img.width * img.height ≤ MAX_DIMENSION * MAX_DIMENSION :=
      Nat.mul_le_mul h1.1 h1.2
    have hc : MAX_DIMENSION * MAX_DIMENSION < img.width * img.height := by
      calc MAX_DIMENSION * MAX_DIMENSION < MAX_IMAGE_PIXELS := by
            norm_num [MAX_DIMENSION, MAX_IMAGE_PIXELS]
        _ < img.width * img.height := h2
    omega
  · -- already within bounds: unchanged
    push_neg at h1 h2
    refine ⟨h1.1, h1.2, h2, le_refl _, le_refl _, fun _ _ _ => rfl, ?_⟩
    refine ⟨1, one_pos, le_refl 1, ?_, ?_⟩
    · rw [mul_one, ratInt_natCast]; omega
    · rw [mul_one, ratInt_natCast]; omega

/-- C9 (witness): the bounds theorem applied to an oversized 8000×6000
image. -/
theorem reduce_image_bounds_witness :
    0 < (PILImage.mk 8000 6000).width ∧ 0 < (PILImage.mk 8000 6000).height ∧
    (reduce_image_if_needed (PILImage.mk 8000 6000)).width ≤ MAX_DIMENSION :=
  ⟨by decide, by decide,
   (reduce_image_bounds (PILImage.mk 8000 6000) (by decide) (by decide)).1⟩

/-! ## Claim C8 -/

/-- C8: `render_meme` fails exactly on a null image.  For every non-null
image (decodable raster images have positive dimensions) the call
succeeds: empty captions, arbitrary (even zero) font metrics and the font
fallback chain all degrade gracefully inside a total pipeline. -/
theorem render_raises_iff_null (image : Option PILImage) (fontAt : Nat → Metrics)
    (top bottom : String) (fs : Option Int) (bfr mhr : ℚ) (mfs : Nat) (pr mwr : ℚ)
    (hpos : ∀ i, image = some i → 0 < i.width ∧ 0 < i.height) :
    isOkE (render_meme image fontAt top bottom fs bfr mhr mfs pr mwr) = true ↔
      image.isSome = true := by
  cases image with
  | none => simp [render_meme, isOkE]
  | some img => simp [render_meme, isOkE]

/-- C8 (witness): the equivalence applied to a concrete non-null 300×180
image (and, in the proof, implicitly to the fact that its dimensions are
positive). -/
theorem render_raises_iff_null_witness :
    (∀ i, (some (PILImage.mk 300 180) : Option PILImage) = some i →
      0 < i.width ∧ 0 < i.height) ∧
    (isOkE (render_meme (some (PILImage.mk 300 180)) cxFontC1 cxTop cxBot none (mkRat 3 50)
        (mkRat 7 20) 12 (mkRat 1 50) (mkRat 19 20)) = true ↔
      (some (PILImage.mk 300 180) : Option PILImage).isSome = true) := by
  have hp : ∀ i, (some (PILImage.mk 300 180) : Option PILImage) = some i →
      0 < i.width ∧ 0 < i.height := by
    intro i hi
    rw [← Option.some.inj hi]
    exact ⟨by decide, by decide⟩
  exact ⟨hp, render_raises_iff_null (some (PILImage.mk 300 180)) cxFontC1 cxTop cxBot none
    (mkRat 3 50) (mkRat 7 20) 12 (mkRat 1 50) (mkRat 19 20) hp⟩

/-! ## Lemmas about truncation and the merge loop (claim C5) -/

/-- Appending a nonempty string yields a nonempty string. -/
theorem append_ne_empty_of_right (a b : String) (hb : b ≠ "") : a ++ b ≠ "" := by
  intro hc
  apply hb
  have hdata : a.data ++ b.data = [] := congrArg String.data hc
  have hbd : b.data = [] := (List.append_eq_nil.mp hdata).2
  cases b
  simp_all

/-- The candidate built at prefix length 0 is exactly the ellipsis. -/
theorem candidate_zero (line : String) :
    rstripStr (pyTake line 0) ++ ellipsisStr = ellipsisStr := rfl

/-- Invariant of the binary search: once the ellipsis alone fits, the
search always ends with a nonempty best candidate, and that candidate
fits the width. -/
theorem truncGo_spec (m : Metrics) (line : String) (maxW : Nat)
    (hell : m.width ellipsisStr ≤ maxW) :
    ∀ fuel low high1 best lastW,
      high1 - low < fuel →
      (best = "" → low = 0 ∧ 0 < high1) →
      (best ≠ "" → m.width best ≤ maxW) →
      (truncGo m line maxW fuel low high1 best lastW).1 ≠ "" ∧
      m.width (truncGo m line maxW fuel low high1 best lastW).1 ≤ maxW := by
  intro fuel
  induction fuel with
  | zero => intro low high1 best lastW hfuel; exact absurd hfuel (by omega)
  | succ fuel ih =>
    intro low high1 best lastW hfuel hinv1 hinv2
    simp only [truncGo]
    split_ifs with h1 h2
    · -- candidate fits: best becomes the candidate
      apply ih
      · omega
      · intro hc
        exact absurd hc (append_ne_empty_of_right _ _ (by decide))
      · intro _
        exact h2
    · -- candidate does not fit: high shrinks
      have hmid : best = "" → 0 < (low + high1 - 1) / 2 := by
        intro hb
        rcases hinv1 hb with ⟨hl0, hh0⟩
        by_contra hm0
        push_neg at hm0
        have hm : (low + high1 - 1) / 2 = 0 := by omega
        rw [hm, candidate_zero] at h2
        exact h2 hell
      apply ih
      · omega
      · intro hb
        exact ⟨(hinv1 hb).1, hmid hb⟩
      · exact hinv2
    · -- loop finished
      have hbne : best ≠ "" := by
        intro hb
        rcases hinv1 hb with ⟨hl0, hh0⟩
        omega
      exact ⟨hbne, hinv2 hbne⟩

/-- Whenever the ellipsis and the empty string fit the width budget, the
result of `_truncate_line_to_width` fits it too. -/
theorem truncate_fits (m : Metrics) (maxW : Nat)
    (hell : m.width ellipsisStr ≤ maxW) (hemp : m.width ("") ≤ maxW) (line : String) :
    m.width (truncate_line_to_width m line maxW) ≤ maxW := by
  have hs := truncGo_spec m line maxW hell (line.toList.length + 2) 0
    (line.toList.length + 1) "" (m.width line) (by omega)
    (fun _ => ⟨rfl, by omega⟩) (fun hc => absurd rfl hc)
  simp only [truncate_line_to_width]
  split_ifs with h1 h2 h3 h4
  · rw [h1]; exact hemp
  · exact h2
  · exact absurd h3 hs.1
  · exact absurd h3 hs.1
  · exact hs.2

/-- The merge loop preserves "every line fits the width". -/
theorem shrinkGo_width (m : Metrics) (aH mW : Nat)
    (hell : m.width ellipsisStr ≤ mW) (hemp : m.width ("") ≤ mW) :
    ∀ fuel ls, (∀ l ∈ ls, m.width l ≤ mW) →
      ∀ l ∈ shrinkGo m aH mW fuel ls, m.width l ≤ mW := by
  intro fuel
  induction fuel with
  | zero => intro ls hls; exact hls
  | succ fuel ih =>
    intro ls hls
    rw [shrinkGo]
    split_ifs with h1 h2
    · exact hls
    · exact hls
    · apply ih
      intro l hl
      rcases List.mem_append.mp hl with hl | hl
      · exact hls l (List.take_subset _ _ hl)
      · rw [List.mem_singleton.mp hl]
        exact truncate_fits m mW hell hemp _

/-- The merge loop never lengthens the list. -/
theorem shrinkGo_length (m : Metrics) (aH mW : Nat) :
    ∀ fuel ls, (shrinkGo m aH mW fuel ls).length ≤ ls.length := by
  intro fuel
  induction fuel with
  | zero => intro ls; exact le_refl _
  | succ fuel ih =>
    intro ls
    rw [shrinkGo]
    split_ifs with h1 h2
    · exact le_refl _
    · exact le_refl _
    · refine le_trans (ih _) ?_
      simp only [List.length_append, List.length_take, List.length_singleton]
      omega

/-- Overflow resolution never produces more lines than it was given. -/
theorem shrink_length (m : Metrics) (lines : List String) (aH mW : Nat) :
    (shrink_lines_to_height m lines aH mW).length ≤ lines.length := by
  simp only [shrink_lines_to_height]
  split_ifs with h1 h2
  · exact le_refl _
  · have hlen : (shrinkGo m aH mW (lines.map
        (fun ln => truncate_line_to_width m ln mW)).length
        (lines.map (fun ln => truncate_line_to_width m ln mW))).length ≤ lines.length := by
      refine le_trans (shrinkGo_length _ _ _ _ _) ?_
      rw [List.length_map]
    rcases hmg : shrinkGo m aH mW (lines.map
        (fun ln => truncate_line_to_width m ln mW)).length
        (lines.map (fun ln => truncate_line_to_width m ln mW)) with _ | ⟨x, xs⟩
    · simp
    · rw [hmg] at hlen
      cases xs with
      | nil => simpa using hlen
      | cons y ys => simpa using hlen
  · have hlen : (shrinkGo m aH mW (lines.map
        (fun ln => truncate_line_to_width m ln mW)).length
        (lines.map (fun ln => truncate_line_to_width m ln mW))).length ≤ lines.length := by
      refine le_trans (shrinkGo_length _ _ _ _ _) ?_
      rw [List.length_map]
    exact hlen

/-! ## Claim C5 -/

/-- Concrete metrics for the C5 counterexample: width 5 pixels per
character, line height 1. -/
def cxFontC5 : Metrics := ⟨fun s => 5 * s.toList.length, fun _ => 1⟩

/-- The overwide single line of the C5 counterexample. -/
def cxWide : String := "WIDE"

/-- C5: counterexample.  A block whose height (1) already fits the budget
(100) is returned unchanged by overflow resolution even though its line
is 20 pixels wide against a maximum of 10: the claimed width guarantee
does not hold for every input. -/
theorem shrink_width_unchecked_cx :
    shrink_lines_to_height cxFontC5 [cxWide] 100 10 = [cxWide] ∧
    ¬ (cxFontC5.width cxWide ≤ 10) := by decide

/-- C5 (amended): overflow resolution always terminates with at most as
many lines as it was given (the merge loop strictly shortens the list);
and whenever the block's measured height initially exceeds the height
budget — so that truncation actually runs — and the ellipsis marker and
empty string fit the maximum width (true of real fonts), every line of
the result has rendered width at most the maximum. -/
theorem shrink_terminates_and_fits_width (m : Metrics) (lines : List String)
    (allowedH maxW : Nat)
    (hover : allowedH < measure_block_height m lines)
    (hell : m.width ellipsisStr ≤ maxW) (hemp : m.width ("") ≤ maxW) :
    (∀ aH2 mW2 : Nat, (shrink_lines_to_height m lines aH2 mW2).length ≤ lines.length) ∧
    ∀ l ∈ shrink_lines_to_height m lines allowedH maxW, m.width l ≤ maxW := by
  refine ⟨fun aH2 mW2 => shrink_length m lines aH2 mW2, ?_⟩
  simp only [shrink_lines_to_height]
  rw [if_neg (by omega)]
  have hnew : ∀ l ∈ lines.map (fun ln => truncate_line_to_width m ln maxW),
      m.width l ≤ maxW := by
    intro l hl
    rcases List.mem_map.mp hl with ⟨ln, _, rfl⟩
    exact truncate_fits m maxW hell hemp ln
  have hmerged := shrinkGo_width m allowedH maxW hell hemp
    (lines.map (fun ln => truncate_line_to_width m ln maxW)).length
    (lines.map (fun ln => truncate_line_to_width m ln maxW)) hnew
  split_ifs with h2
  · rcases hmg : shrinkGo m allowedH maxW (lines.map
        (fun ln => truncate_line_to_width m ln maxW)).length
        (lines.map (fun ln => truncate_line_to_width m ln maxW)) with _ | ⟨x, xs⟩
    · rw [hmg] at hmerged; exact hmerged
    · rw [hmg] at hmerged
      cases xs with
      | nil =>
        intro l hl
        rw [List.mem_singleton.mp hl]
        exact truncate_fits m maxW hell hemp x
      | cons y ys => exact hmerged
  · exact hmerged

/-- C5 (witness): the amended theorem applied to a concrete two-line
block that exceeds its height budget. -/
theorem shrink_terminates_and_fits_width_witness :
    0 < measure_block_height cxFontC5 [cxWide, cxWide] ∧
    cxFontC5.width ellipsisStr ≤ 10 ∧ cxFontC5.width ("") ≤ 10 ∧
    ∀ l ∈ shrink_lines_to_height cxFontC5 [cxWide, cxWide] 0 10,
      cxFontC5.width l ≤ 10 :=
  ⟨by decide, by decide, by decide,
   (shrink_terminates_and_fits_width cxFontC5 [cxWide, cxWide] 0 10 (by decide)
     (by decide) (by decide)).2⟩

/-! ## Lemmas about wrapping a single long word (claim C3) -/

theorem mk_toList (w : String) : String.mk w.toList = w := by
  cases w
  rfl

theorem twGo_nil (width : Nat) : ∀ fuel hl, twGo width fuel [] hl = [] := by
  intro fuel hl
  cases fuel with
  | zero => rfl
  | succ fuel => rfl

theorem pyTake_toList (s : String) (n : Nat) : (pyTake s n).toList = s.toList.take n := rfl

theorem pyDrop_toList (s : String) (n : Nat) : (pyDrop s n).toList = s.toList.drop n := rfl

theorem append_toList (a b : String) : (a ++ b).toList = a.toList ++ b.toList := rfl

/-- Taking then dropping at the same index reassembles the string. -/
theorem pyTake_append_pyDrop (w : String) (n : Nat) : pyTake w n ++ pyDrop w n = w := by
  show String.mk (w.toList.take n ++ w.toList.drop n) = w
  rw [List.take_append_drop, mk_toList]

theorem joinStrs_acc : ∀ (l : List String) (acc : String),
    List.foldl (fun a b => a ++ b) acc l = acc ++ joinStrs l := by
  intro l
  induction l with
  | nil => intro acc; show acc = acc ++ ""; rw [String.append_empty]
  | cons x xs ih =>
    intro acc
    show List.foldl _ (acc ++ x) xs = acc ++ joinStrs (x :: xs)
    rw [ih (acc ++ x)]
    have hx : joinStrs (x :: xs) = x ++ joinStrs xs := by
      show List.foldl _ ("" ++ x) xs = x ++ joinStrs xs
      rw [String.empty_append, ih x]
    rw [hx, String.append_assoc]

theorem joinStrs_cons (a : String) (l : List String) :
    joinStrs (a :: l) = a ++ joinStrs l := by
  show List.foldl _ ("" ++ a) l = a ++ joinStrs l
  rw [String.empty_append, joinStrs_acc]

/-- A nonempty string of non-whitespace characters is not all-whitespace. -/
theorem isAllWS_false (s : String) (hne : s.toList ≠ [])
    (hws : ∀ c ∈ s.toList, c.isWhitespace = false) : isAllWS s = false := by
  rw [isAllWS]
  rcases hl : s.toList with _ | ⟨c, rest⟩
  · exact absurd hl hne
  · have hc : c.isWhitespace = false := hws c (by rw [hl]; exact List.mem_cons_self c rest)
    simp [hc]

/-- A non-whitespace character is not the space character. -/
theorem beq_space_false (c : Char) (h : c.isWhitespace = false) : (c == ' ') = false := by
  cases hbeq : c == ' ' with
  | false => rfl
  | true =>
    have hc : c = ' ' := beq_iff_eq.mp hbeq
    rw [hc] at h
    exact absurd h (by decide)

theorem splitWSGo_nonws : ∀ (cs : List Char), (∀ c ∈ cs, c.isWhitespace = false) →
    ∀ acc, acc ≠ [] → splitWSGo cs acc = [acc.reverse ++ cs] := by
  intro cs
  induction cs with
  | nil => intro _ acc hacc; simp [splitWSGo, hacc]
  | cons c rest ih =>
    intro hws acc hacc
    have hc : c.isWhitespace = false := hws c (List.mem_cons_self c rest)
    rw [splitWSGo]
    rw [if_neg (by rw [hc]; exact Bool.false_ne_true)]
    rw [ih (fun d hd => hws d (List.mem_cons_of_mem c hd)) (c :: acc) (by simp)]
    simp

/-- `str.split()` of a nonempty whitespace-free word is the word itself. -/
theorem splitWS_single (w : String) (hne : w.toList ≠ [])
    (hws : ∀ c ∈ w.toList, c.isWhitespace = false) : splitWS w = [w] := by
  rw [splitWS]
  rcases hl : w.toList with _ | ⟨c, rest⟩
  · exact absurd hl hne
  · have hws2 : ∀ c2 ∈ c :: rest, c2.isWhitespace = false := by rw [← hl]; exact hws
    have hc : c.isWhitespace = false := hws2 c (List.mem_cons_self c rest)
    rw [splitWSGo]
    rw [if_neg (by rw [hc]; exact Bool.false_ne_true)]
    rw [splitWSGo_nonws rest (fun d hd => hws2 d (List.mem_cons_of_mem c hd)) [c] (by simp)]
    show [String.mk (c :: rest)] = [w]
    rw [← hl, mk_toList]

/-- The greedy pass keeps a single word on one line. -/
theorem greedyWrap_single (m : Metrics) (maxW : Nat) (w : String) (hne : w ≠ "") :
    greedyWrap m maxW [w] "" = [w] := by
  rw [greedyWrap]
  rw [if_pos (Or.inr rfl)]
  rw [greedyWrap]
  have hni : ¬ (if ("" : String) = "" then w else "" ++ " " ++ w) = "" := by
    rw [if_pos rfl]; exact hne
  rw [if_neg hni, if_pos rfl]

/-- Whitespace normalization fixes a whitespace-free word. -/
theorem twNormalize_eq (w : String) (hws : ∀ c ∈ w.toList, c.isWhitespace = false) :
    twNormalize w = w := by
  rw [twNormalize]
  have hmap : w.toList.map (fun c => if c.isWhitespace then ' ' else c) = w.toList := by
    rw [List.map_congr_left (g := id) ?_, List.map_id]
    intro c hc
    simp [hws c hc]
  rw [hmap, mk_toList]

theorem runsGo_nonspace : ∀ (cs : List Char), (∀ c ∈ cs, (c == ' ') = false) →
    ∀ (b : Bool) (acc : List Char), b = false →
      runsGo cs (some (b, acc)) = [acc.reverse ++ cs] := by
  intro cs
  induction cs with
  | nil => intro _ b acc _; simp [runsGo]
  | cons c rest ih =>
    intro hsp b acc hb
    have hc : (c == ' ') = false := hsp c (List.mem_cons_self c rest)
    rw [runsGo]
    rw [if_pos (by rw [hc, hb])]
    rw [ih (fun d hd => hsp d (List.mem_cons_of_mem c hd)) b (c :: acc) hb]
    simp

/-- The chunk splitter yields a single chunk on a whitespace-free word. -/
theorem twChunks_single (w : String) (hne : w.toList ≠ [])
    (hws : ∀ c ∈ w.toList, c.isWhitespace = false) : twChunks w = [w] := by
  rw [twChunks]
  rcases hl : w.toList with _ | ⟨c, rest⟩
  · exact absurd hl hne
  · have hws2 : ∀ c2 ∈ c :: rest, c2.isWhitespace = false := by rw [← hl]; exact hws
    rw [runsGo]
    rw [runsGo_nonspace rest
      (fun d hd => beq_space_false d (hws2 d (List.mem_cons_of_mem c hd)))
      (c == ' ') [c] (beq_space_false c (hws2 c (List.mem_cons_self c rest)))]
    show [String.mk (c :: rest)] = [w]
    rw [← hl, mk_toList]

theorem strlen_eq (w : String) : w.length = w.toList.length := rfl

theorem joinStrs_single (a : String) : joinStrs [a] = a := by
  rw [joinStrs_cons]
  show a ++ "" = a
  rw [String.append_empty]

/-- One `twGo` step on a single word that fits the width: the word becomes
the only line. -/
theorem twGo_word_fit (width fuel : Nat) (w : String) (hl : Bool)
    (hne : w.toList ≠ []) (hws : ∀ c ∈ w.toList, c.isWhitespace = false)
    (hfit : w.toList.length ≤ width) :
    twGo width (fuel + 1) [w] hl = [w] := by
  have hAll : isAllWS w = false := isAllWS_false w hne hws
  have hfit2 : w.length ≤ width := by rw [strlen_eq]; exact hfit
  simp [twGo, hAll, hfit2, greedyTake, handleLong, sumLen, dropTrailWS, joinStrs, twGo_nil]

set_option maxRecDepth 4000 in
/-- One `twGo` step on a single word longer than the width: the first
`width` characters become a line and the loop continues on the rest. -/
theorem twGo_word_long (width fuel : Nat) (w : String) (hl : Bool) (hw : 0 < width)
    (hne : w.toList ≠ []) (hws : ∀ c ∈ w.toList, c.isWhitespace = false)
    (hbig : width < w.toList.length) :
    twGo width (fuel + 1) [w] hl = pyTake w width :: twGo width fuel [pyDrop w width] true := by
  have hAll : isAllWS w = false := isAllWS_false w hne hws
  have hAllT : isAllWS (pyTake w width) = false := by
    apply isAllWS_false
    · rw [pyTake_toList]
      have hpos : 0 < (w.toList.take width).length := by
        rw [List.length_take]
        omega
      exact List.length_pos.mp hpos
    · rw [pyTake_toList]
      intro c hc
      exact hws c (List.take_subset _ _ hc)
  have hbig2 : ¬ (w.length ≤ width) := by rw [strlen_eq]; omega
  have hw0 : ¬ (width = 0) := by omega
  have hbig3 : width < w.length := by rw [strlen_eq]; omega
  simp [twGo, hAll, hAllT, greedyTake, handleLong, sumLen, dropTrailWS, joinStrs,
    hbig2, hw0, hbig3]

/-- The wrap loop on a single whitespace-free word: the produced lines
concatenate back to the word, every line is at most `width` characters,
at least one line is produced, and a word longer than `width` yields at
least two lines (it is character-split, not kept whole). -/
theorem twGo_word (width : Nat) (hw : 0 < width) :
    ∀ fuel (w : String) (hl : Bool),
      w.toList.length < fuel → w.toList ≠ [] →
      (∀ c ∈ w.toList, c.isWhitespace = false) →
      joinStrs (twGo width fuel [w] hl) = w ∧
      (∀ l ∈ twGo width fuel [w] hl, l.toList.length ≤ width) ∧
      twGo width fuel [w] hl ≠ [] ∧
      (width < w.toList.length → 2 ≤ (twGo width fuel [w] hl).length) := by
  intro fuel
  induction fuel with
  | zero => intro w hl hf hne hws; exact absurd hf (Nat.not_lt_zero _)
  | succ fuel ih =>
    intro w hl hf hne hws
    by_cases hcase : w.toList.length ≤ width
    · rw [twGo_word_fit width fuel w hl hne hws hcase]
      refine ⟨joinStrs_single w, ?_, by simp, fun hcon => absurd hcon (not_lt.mpr hcase)⟩
      intro l hl2
      rw [List.mem_singleton.mp hl2]
      exact hcase
    · push_neg at hcase
      rw [twGo_word_long width fuel w hl hw hne hws hcase]
      have hdlen : (pyDrop w width).toList.length = w.toList.length - width := by
        rw [pyDrop_toList, List.length_drop]
      obtain ⟨ihj, ihlen, ihne, ihcount⟩ := ih (pyDrop w width) true
        (by omega) (by rw [pyDrop_toList]; apply List.length_pos.mp; rw [List.length_drop]; omega)
        (by rw [pyDrop_toList]; intro c hc; exact hws c (List.drop_subset _ _ hc))
      refine ⟨?_, ?_, by simp, ?_⟩
      · rw [joinStrs_cons, ihj, pyTake_append_pyDrop]
      · intro l hl2
        rcases List.mem_cons.mp hl2 with rfl | hl2
        · rw [pyTake_toList, List.length_take]
          omega
        · exact ihlen l hl2
      · intro _
        have hpos : 0 < (twGo width fuel [pyDrop w width] true).length :=
          List.length_pos.mpr ihne
        simp only [List.length_cons]
        omega

/-- `textwrap.wrap` on a single whitespace-free word: the chunks
concatenate back to the word, each chunk has at most `width` characters,
the result is nonempty, and an overlong word is split into at least two
chunks. -/
theorem textwrap_wrap_word (w : String) (width : Nat) (hw : 0 < width)
    (hne : w.toList ≠ []) (hws : ∀ c ∈ w.toList, c.isWhitespace = false) :
    joinStrs (textwrap_wrap w width) = w ∧
    (∀ l ∈ textwrap_wrap w width, l.toList.length ≤ width) ∧
    textwrap_wrap w width ≠ [] ∧
    (width < w.toList.length → 2 ≤ (textwrap_wrap w width).length) := by
  simp only [textwrap_wrap]
  rw [twNormalize_eq w hws, twChunks_single w hne hws]
  have hs : sumLen [w] + [w].length + 1 = w.toList.length + 2 := by
    simp [sumLen]
  rw [hs]
  exact twGo_word width hw (w.toList.length + 2) w false (by omega) hne hws

/-! ## Claim C3 -/

/-- Concrete metrics for the C3 counterexample: each character is 10
pixels wide. -/
def cxFontC3 : Metrics := ⟨fun s => 10 * s.toList.length, fun _ => 10⟩

/-- The overlong single word of the C3 counterexample (40 pixels wide
against a 20 pixel budget). -/
def cxWordC3 : String := "ABCD"

/-- C3: counterexample.  A single word 40 pixels wide wrapped at maximum
width 20 is not kept on its own line uncut: the function's second pass
estimates 2 characters per line and returns the word cut into "AB" and
"CD". -/
theorem wrap_splits_long_word_cx :
    wrap_text_for_width cxFontC3 cxWordC3 20 = ["AB", "CD"] ∧
    ¬ (wrap_text_for_width cxFontC3 cxWordC3 20 = [cxWordC3]) := by decide

/-- C3 (amended): the greedy pass does keep a single overlong word whole,
but `_wrap_text_for_width` then re-wraps any line still wider than the
budget through `textwrap.wrap` at an estimated character count, so a
whitespace-free word of at least two characters whose rendered width
exceeds the maximum is returned character-split: the result is exactly
the `textwrap.wrap` chunking, it is not the uncut word, the chunks
concatenate back to the word, and every chunk has at most the estimated
number of characters. -/
theorem overlong_word_char_split (m : Metrics) (word : String) (maxW : Nat)
    (hws : ∀ c ∈ word.toList, c.isWhitespace = false)
    (hlen : 2 ≤ word.toList.length)
    (hover : maxW < m.width word) :
    wrap_text_for_width m word maxW =
      textwrap_wrap word (estChars maxW word.toList.length (m.width word)) ∧
    wrap_text_for_width m word maxW ≠ [word] ∧
    joinStrs (wrap_text_for_width m word maxW) = word ∧
    (∀ l ∈ wrap_text_for_width m word maxW,
      l.toList.length ≤ estChars maxW word.toList.length (m.width word)) := by
  have hne : word.toList ≠ [] := by
    intro hcon
    rw [hcon] at hlen
    simp at hlen
  have hwne : word ≠ "" := by
    intro hcon
    rw [hcon] at hne
    exact hne rfl
  have hw0 : 0 < m.width word := by omega
  have hest1 : 0 < estChars maxW word.toList.length (m.width word) := by
    rw [estChars]
    omega
  have hestlt : estChars maxW word.toList.length (m.width word) < word.toList.length := by
    rw [estChars]
    have hdiv : maxW * max 1 word.toList.length / m.width word < word.toList.length := by
      rw [Nat.div_lt_iff_lt_mul hw0]
      have hmx : max 1 word.toList.length = word.toList.length := by omega
      rw [hmx]
      calc maxW * word.toList.length < m.width word * word.toList.length :=
            mul_lt_mul_of_pos_right hover (by omega)
        _ = word.toList.length * m.width word := Nat.mul_comm _ _
    omega
  obtain ⟨htj, htl, htne, htcount⟩ :=
    textwrap_wrap_word word (estChars maxW word.toList.length (m.width word)) hest1 hne hws
  have hwrap : wrap_text_for_width m word maxW =
      textwrap_wrap word (estChars maxW word.toList.length (m.width word)) := by
    rw [wrap_text_for_width, if_neg hwne, splitWS_single word hne hws,
      greedyWrap_single m maxW word hwne]
    simp only [fixLongLines, List.map, List.flatten, List.append_nil]
    rw [if_neg (not_le.mpr hover), if_neg (by omega : ¬ m.width word = 0), if_neg htne]
  refine ⟨hwrap, ?_, ?_, ?_⟩
  · rw [hwrap]
    intro hcon
    have h2 := htcount hestlt
    rw [hcon] at h2
    simp at h2
  · rw [hwrap]
    exact htj
  · rw [hwrap]
    exact htl

/-- C3 (witness): the amended theorem applied to the concrete overlong
word. -/
theorem overlong_word_char_split_witness :
    (∀ c ∈ cxWordC3.toList, c.isWhitespace = false) ∧
    2 ≤ cxWordC3.toList.length ∧ 20 < cxFontC3.width cxWordC3 ∧
    wrap_text_for_width cxFontC3 cxWordC3 20 ≠ [cxWordC3] :=
  ⟨by decide, by decide, by decide,
   (overlong_word_char_split cxFontC3 cxWordC3 20 (by decide) (by decide) (by decide)).2.1⟩

end MemeSpec
